import Mathlib

/-!
# Verification of the Cloud-Resume-Analyzer ML pipeline

Shallow embedding of the pipeline in `src/ml`:
`parser.py` (rule-based résumé text segmentation and entity extraction),
`feature_extractor.py` (hand-rolled numeric features),
`scorer.py` (thin classifier wrapper) and `predict.py` (the glue).

Modelling conventions:
* Python `float` values are embedded as `ℚ`.  Every float computation in
  this code base (`x * 0.5`, `x + 2.0`, `min(x, 20.0)`, …) is exact dyadic
  arithmetic, so the rational embedding is value-faithful.
* Python dictionaries are embedded as insertion-ordered association lists;
  `dict.get(k, d)` becomes an `Option`-valued field with `.getD d`.
* Python exceptions are embedded with `Except PyErr`.
* The external spaCy named-entity recogniser is an explicit function
  parameter `ner : String → List Ent`; spaCy's `Doc.text` is the input text.
* The trained scikit-learn model (an external artefact loaded from disk) is
  an explicit parameter: `none` models the absent model file, and the
  model's own `predict` may fail with an arbitrary exception.
* Python's `re` module is embedded by a small backtracking matcher over a
  regex AST.  All repetitions occurring in the three regexes of `parser.py`
  are over single-character classes, so greedy longest-first backtracking
  reproduces CPython's leftmost-greedy semantics exactly.  Character
  classes (`\d`, `\s`, `str.lower`) are modelled at ASCII fidelity.
-/

namespace Resume

/-- Python exception outcomes relevant to this code base:
`FileNotFoundError` raised by `scorer.load_model`, `IndexError` raised by
list indexing, and a catch-all for any other exception an external library
may raise. -/
inductive PyErr where
  | fileNotFound
  | indexError
  | otherError
deriving DecidableEq, Repr

/-! ## Python string primitives -/

/-- Python's ASCII whitespace (the `\s` class and `str.strip()`||`str.split()`
default separators): space, tab, newline, carriage return, vertical tab,
form feed. -/
def pyIsSpace (c : Char) : Bool :=
  c = ' ' || c = '\t' || c = '\n' || c = '\r' || c = '\x0b' || c = '\x0c'

/-- The line boundaries recognised by Python's `str.splitlines`. -/
def isLineBreak (c : Char) : Bool :=
  c = '\n' || c = '\r' || c = '\x0b' || c = '\x0c' ||
  c = '\x1c' || c = '\x1d' || c = '\x1e' || c = '\x85' || c = '\u2028' || c = '\u2029'

/-- Worker for `str.splitlines`: `acc` holds the (reversed) current line;
a `"\r\n"` pair counts as a single boundary. -/
def slAux : List Char → List Char → List (List Char)
  | [], acc => if acc = [] then [] else [acc.reverse]
  | [c], acc => if isLineBreak c then [acc.reverse] else [(c :: acc).reverse]
  | c :: c' :: rest, acc =>
    if c = '\r' ∧ c' = '\n' then acc.reverse :: slAux rest []
    else if isLineBreak c then acc.reverse :: slAux (c' :: rest) []
    else slAux (c' :: rest) (c :: acc)

/-- Python `str.splitlines()`. -/
def pySplitlines (s : String) : List String := (slAux s.data []).map String.mk

/-- Strip characters satisfying `p` from both ends of a character list. -/
def stripL (p : Char → Bool) (cs : List Char) : List Char :=
  ((cs.dropWhile p).reverse.dropWhile p).reverse

/-- Python `str.strip()` (whitespace). -/
def pyStrip (s : String) : String := ⟨stripL pyIsSpace s.data⟩

/-- Python `str.strip(':')`. -/
def pyStripColon (s : String) : String := ⟨stripL (fun c => c = ':') s.data⟩

/-- Python `str.lower()` (ASCII fidelity). -/
def pyLower (s : String) : String := ⟨s.data.map Char.toLower⟩

/-- Python `str.split()` with no argument: maximal non-empty runs between
whitespace. -/
def pySplitWS (s : String) : List String :=
  ((s.data.splitOnP pyIsSpace).filter (fun w => w ≠ [])).map String.mk

/-- Does `b` start with `a`? -/
def startsWithL : List Char → List Char → Bool
  | [], _ => true
  | _ :: _, [] => false
  | a :: as, b :: bs => a = b && startsWithL as bs

/-- Python's substring test `needle in hay`. -/
def substrIn (needle : List Char) : List Char → Bool
  | [] => needle = []
  | c :: rest => startsWithL needle (c :: rest) || substrIn needle rest

/-- The part of `cs` before the first occurrence of `sep`:
Python `s.split(sep)[0]`. -/
def splitSepHead (sep : List Char) : List Char → List Char
  | [] => []
  | c :: rest =>
    if startsWithL sep (c :: rest) then [] else c :: splitSepHead sep rest

/-- Python `"\n".join(ls)`. -/
def pyJoinNl : List String → String
  | [] => ""
  | [l] => l
  | l :: l' :: ls => l ++ "\n" ++ pyJoinNl (l' :: ls)

/-- Python `int(s)` on a non-empty decimal-digit string. -/
def digitsToInt (s : String) : Int :=
  ((s.data.foldl (fun n c => n * 10 + (c.toNat - 48)) 0 : Nat) : Int)

/-- First-occurrence-preserving deduplication
(Python `list(dict.fromkeys(xs))`). -/
def dedupFirstAux (seen : List String) : List String → List String
  | [] => []
  | x :: xs =>
    if x ∈ seen then dedupFirstAux seen xs else x :: dedupFirstAux (x :: seen) xs

/-- Order-preserving deduplication keeping first occurrences. -/
def dedupFirst (l : List String) : List String := dedupFirstAux [] l

/-! ## A backtracking regex engine

AST restricted to the operators appearing in `parser.py` and
`feature_extractor.py`.  All repetition operators range over
single-character classes, which makes greedy longest-first backtracking
both terminating and faithful to CPython `re`. -/

inductive RE where
  /-- one character of a class -/
  | cls (p : Char → Bool)
  /-- concatenation -/
  | seq (rs : List RE)
  /-- alternation, tried left to right -/
  | alt (rs : List RE)
  /-- between `lo` and `hi` characters of a class, greedy -/
  | rep (p : Char → Bool) (lo hi : Nat)
  /-- one or more characters of a class, greedy -/
  | plus (p : Char → Bool)
  /-- zero or one occurrence, greedy -/
  | opt (r : RE)

/-- Length of the maximal run of `p`-characters of `cs` starting at `i`. -/
def maxRun (p : Char → Bool) (cs : List Char) (i : Nat) : Nat :=
  ((cs.drop i).takeWhile p).length

/-- Try to continue with `k` after consuming `n, n-1, …, lo` characters
starting at `i` (greedy order). -/
def tryDown (k : Nat → Option Nat) (i lo : Nat) : Nat → Option Nat
  | 0 => if lo = 0 then k i else none
  | n + 1 =>
    if n + 1 < lo then none
    else
      match k (i + (n + 1)) with
      | some r => some r
      | none => tryDown k i lo n

mutual

/-- Backtracking matcher in continuation style: try to match `r` in `cs`
starting at position `i`, then continue with `k`; returns the end position
of the first overall success in CPython's preference order. -/
def matchRE : RE → List Char → Nat → (Nat → Option Nat) → Option Nat
  | .cls p, cs, i, k =>
    match cs.get? i with
    | some c => if p c then k (i + 1) else none
    | none => none
  | .seq rs, cs, i, k => matchSeq rs cs i k
  | .alt rs, cs, i, k => matchAlt rs cs i k
  | .rep p lo hi, cs, i, k =>
    let run := maxRun p cs i
    if run < lo then none else tryDown k i lo (min run hi)
  | .plus p, cs, i, k => tryDown k i 1 (maxRun p cs i)
  | .opt r, cs, i, k =>
    match matchRE r cs i k with
    | some j => some j
    | none => k i

/-- Match a concatenation. -/
def matchSeq : List RE → List Char → Nat → (Nat → Option Nat) → Option Nat
  | [], _, i, k => k i
  | r :: rs, cs, i, k => matchRE r cs i (fun j => matchSeq rs cs j k)

/-- Match an alternation, left to right. -/
def matchAlt : List RE → List Char → Nat → (Nat → Option Nat) → Option Nat
  | [], _, _, _ => none
  | r :: rs, cs, i, k =>
    match matchRE r cs i k with
    | some j => some j
    | none => matchAlt rs cs i k

end

/-- Match `r` at exactly position `i`, returning the end position. -/
def matchHere (r : RE) (cs : List Char) (i : Nat) : Option Nat :=
  matchRE r cs i (fun j => some j)

/-- The substring of `cs` from `i` (inclusive) to `j` (exclusive). -/
def strSub (cs : List Char) (i j : Nat) : String := ⟨(cs.drop i).take (j - i)⟩

/-- Scanner for `re.finditer`: non-overlapping matches, leftmost first;
resumes after each match (advancing one position past an empty match).
The scanning position strictly increases, so fuel `cs.length + 1`
(as supplied by `reFinditer`) never runs out. -/
def finditerGo (r : RE) (cs : List Char) : Nat → Nat → List (Nat × Nat)
  | 0, _ => []
  | fuel + 1, i =>
    if i > cs.length then []
    else
      match matchHere r cs i with
      | some j =>
        if i < j then (i, j) :: finditerGo r cs fuel j
        else (i, j) :: finditerGo r cs fuel (i + 1)
      | none => finditerGo r cs fuel (i + 1)

/-- Python `re.finditer`, as a list of (start, end) spans. -/
def reFinditer (r : RE) (s : String) : List (Nat × Nat) :=
  finditerGo r s.data (s.data.length + 1) 0

/-- Python `re.findall` for the patterns of `parser.py`, each of which has
a single group spanning the whole pattern (or no group), so the returned
strings are the full matches. -/
def reFindall (r : RE) (s : String) : List String :=
  (reFinditer r s).map (fun m => strSub s.data m.1 m.2)

/-- Python `re.search`, returning the text of the leftmost match. -/
def reSearch (r : RE) (s : String) : Option String :=
  ((List.range (s.data.length + 1)).findSome?
      (fun i => (matchHere r s.data i).map (fun j => (i, j)))).map
    (fun m => strSub s.data m.1 m.2)

/-- Truthiness of `re.search(...)` used in boolean positions. -/
def reHasMatch (r : RE) (s : String) : Bool := (reSearch r s).isSome

/-! ## The concrete regexes of `parser.py` / `feature_extractor.py` -/

def isAsciiDigit (c : Char) : Bool := '0' ≤ c && c ≤ '9'

def isAsciiAlpha (c : Char) : Bool := ('a' ≤ c && c ≤ 'z') || ('A' ≤ c && c ≤ 'Z')

def isAsciiAlnum (c : Char) : Bool := isAsciiAlpha c || isAsciiDigit c

/-- `[a-zA-Z0-9_.+-]` -/
def emailLocalChar (c : Char) : Bool := isAsciiAlnum c || c = '_' || c = '.' || c = '+' || c = '-'

/-- `[a-zA-Z0-9-]` -/
def emailDomChar (c : Char) : Bool := isAsciiAlnum c || c = '-'

/-- `[a-zA-Z0-9-.]` -/
def emailTldChar (c : Char) : Bool := isAsciiAlnum c || c = '-' || c = '.'

/-- `EMAIL_RE = ([a-zA-Z0-9_.+-]+@[a-zA-Z0-9-]+\.[a-zA-Z0-9-.]+)` -/
def EMAIL_RE : RE :=
  .seq [.plus emailLocalChar, .cls (fun c => c = '@'), .plus emailDomChar,
        .cls (fun c => c = '.'), .plus emailTldChar]

/-- `[\s\-]` -/
def spaceDash (c : Char) : Bool := pyIsSpace c || c = '-'

/-- `[\d\s\-]` -/
def phoneBodyChar (c : Char) : Bool := isAsciiDigit c || pyIsSpace c || c = '-'

/-- `PHONE_RE = (\+?\d{1,4}[\s\-]?)?(\(?\d{2,4}\)?[\s\-]?)?[\d\s\-]{6,12}` -/
def PHONE_RE : RE :=
  .seq [.opt (.seq [.rep (fun c => c = '+') 0 1, .rep isAsciiDigit 1 4, .rep spaceDash 0 1]),
        .opt (.seq [.rep (fun c => c = '(') 0 1, .rep isAsciiDigit 2 4,
                    .rep (fun c => c = ')') 0 1, .rep spaceDash 0 1]),
        .rep phoneBodyChar 6 12]

/-- A case-insensitive literal (the `re.IGNORECASE` flag of `DATE_RANGE_RE`). -/
def litCI (s : String) : RE := .seq (s.data.map (fun c => .cls (fun x => x.toLower = c.toLower)))

/-- The month alternatives of `DATE_RANGE_RE`, in source order. -/
def MONTH_WORDS : List String :=
  ["Jan", "Feb", "Mar", "Apr", "May", "Jun", "Jul", "Aug", "Sep", "Sept", "Oct", "Nov", "Dec",
   "January", "February", "March", "April", "May", "June", "July", "August", "September",
   "October", "November", "December"]

/-- `[^,\n\r]` -/
def notCommaBreak (c : Char) : Bool := !(c = ',' || c = '\n' || c = '\r')

/-- `DATE_RANGE_RE = ((?:Jan|…|December|\d{4})[^,\n\r]{0,30}(?:\d{4}))`,
compiled with `re.IGNORECASE`. -/
def DATE_RANGE_RE : RE :=
  .seq [.alt (MONTH_WORDS.map litCI ++ [.rep isAsciiDigit 4 4]),
        .rep notCommaBreak 0 30, .rep isAsciiDigit 4 4]

/-- `DATE_RE = (\d{4})` from `feature_extractor.py`. -/
def DATE_RE : RE := .rep isAsciiDigit 4 4

/-! ## `parser.py` -/

/-- A spaCy entity: `ent.label_`, `ent.start_char`, `ent.text`. -/
structure Ent where
  label : String
  start_char : Nat
  text : String
deriving DecidableEq, Repr

/-- One entry produced by `parse_experience_block`. -/
structure ExpEntry where
  title : String
  date_text : String
  bullets : List String
deriving DecidableEq, Repr

/-- The record returned by `parse_text`. -/
structure Parsed where
  name : String
  emails : List String
  phones : List String
  skills : List String
  experience : List ExpEntry
  education : List String
  sections : List String
  raw_text : String
deriving DecidableEq, Repr

/-- `SKILLS_SEED` from `parser.py`. -/
def SKILLS_SEED : List String :=
  ["python", "java", "c++", "c", "tensorflow", "pytorch", "scikit-learn",
   "docker", "kubernetes", "aws", "gcp", "azure", "nlp", "computer vision",
   "pandas", "numpy", "sql", "nosql", "react", "nodejs", "git", "rest"]

/-- `SECTION_HEADERS` from `parser.py`. -/
def SECTION_HEADERS : List String :=
  ["experience", "work experience", "professional experience",
   "education", "skills", "projects", "certifications", "summary", "objective"]

/-- `extract_emails`.  Python builds `list(set(…))`, whose iteration order
is unspecified (string hashing is salted); we model it as the match order
with first-occurrence deduplication — the same set of strings. -/
def extract_emails (text : String) : List String :=
  dedupFirst (reFindall EMAIL_RE text)

/-- `extract_phones`: stripped full matches, deduplicated preserving first
occurrences (`list(dict.fromkeys(phones))`). -/
def extract_phones (text : String) : List String :=
  dedupFirst ((reFindall PHONE_RE text).map pyStrip)

/-- The membership test of `extract_skills`: `s.lower() in text_low`. -/
def skillFound (text_low : String) (s : String) : Bool :=
  substrIn (pyLower s).data text_low.data

/-- `extract_skills` (with the default seed list): `sorted(found)` where
`found` is the set of seed skills occurring in the lowercased text. -/
def extract_skills (text : String) : List String :=
  List.insertionSort (fun a b => a ≤ b) ((SKILLS_SEED.filter (skillFound (pyLower text))).dedup)

/-- `low = l.lower().strip(':').strip()` in `split_into_sections`. -/
def normalizeHeader (l : String) : String := pyStrip (pyStripColon (pyLower l))

/-- The header test of `split_into_sections`:
`any(h in low for h in SECTION_HEADERS) and len(l.split()) <= 5`. -/
def isHeaderLine (l : String) : Bool :=
  SECTION_HEADERS.any (fun h => substrIn h.data (normalizeHeader l).data)
    && (pySplitWS l).length ≤ 5

/-- The loop state of `split_into_sections`: the section dictionary built
so far (insertion-ordered), the current section name, and the buffered
lines not yet flushed. -/
structure SplitState where
  sections : List (String × String)
  current : String
  buffer : List String
deriving DecidableEq, Repr

/-- `sections.setdefault(k, ""); sections[k] += v` on an insertion-ordered
dictionary. -/
def dictAppend : List (String × String) → String → String → List (String × String)
  | [], k, v => [(k, v)]
  | (k', v') :: rest, k, v =>
    if k' = k then (k', v' ++ v) :: rest else (k', v') :: dictAppend rest k v

/-- The flush idiom of `split_into_sections`:
`if buffer: sections.setdefault(current, ""); sections[current] += "\n".join(buffer) + "\n"; buffer = []`. -/
def flushBuffer (st : SplitState) : SplitState :=
  if st.buffer = [] then st
  else { st with sections := dictAppend st.sections st.current (pyJoinNl st.buffer ++ "\n"),
                 buffer := [] }

/-- One iteration of the `for l in lines` loop of `split_into_sections`. -/
def splitStep (st : SplitState) (l : String) : SplitState :=
  if l = "" then flushBuffer st
  else if isHeaderLine l then { flushBuffer st with current := normalizeHeader l }
  else { st with buffer := st.buffer ++ [l] }

/-- `split_into_sections`, as an insertion-ordered association list. -/
def split_into_sections (text : String) : List (String × String) :=
  (flushBuffer (((pySplitlines text).map pyStrip).foldl splitStep
    { sections := [], current := "header", buffer := [] })).sections

/-- `extract_name`: first PERSON entity starting before character 120,
else the first line of the stripped text (when at most 4 words), else `""`.
On text that strips to nothing the fallback `splitlines()[0]` raises
`IndexError`. -/
def extract_name (ents : List Ent) (text : String) : Except PyErr String :=
  match ents.find? (fun e => e.label == "PERSON" && decide (e.start_char < 120)) with
  | some e => .ok e.text
  | none =>
    match pySplitlines (pyStrip text) with
    | [] => .error .indexError
    | first_line :: _ =>
      if (pySplitWS first_line).length ≤ 4 then .ok (pyStrip first_line) else .ok ""

/-- The inner bullet-collection loop of the date-on-same-line branch of
`parse_experience_block`: collect lines with more than 2 words, stopping
at a line containing a date range.  Returns the bullets and the resume
index `j`. -/
def collectSameLine (lines : List String) (j : Nat) : List String × Nat :=
  if h : j < lines.length then
    if (pySplitWS lines[j]).length > 2 then
      if reHasMatch DATE_RANGE_RE lines[j] then ([], j)
      else
        let r := collectSameLine lines (j + 1)
        (lines[j] :: r.1, r.2)
    else ([], j)
  else ([], j)
termination_by lines.length - j

/-- The inner bullet-collection loop of the lookahead branch of
`parse_experience_block`: collect lines until one contains a date range. -/
def collectLookahead (lines : List String) (j : Nat) : List String × Nat :=
  if h : j < lines.length then
    if reHasMatch DATE_RANGE_RE lines[j] then ([], j)
    else
      let r := collectLookahead lines (j + 1)
      (lines[j] :: r.1, r.2)
  else ([], j)
termination_by lines.length - j

/-- The outer `while i < len(lines)` loop of `parse_experience_block`,
with explicit fuel bounding the number of iterations.  `none` means the
fuel ran out before the loop finished. -/
def parseExpGo (lines : List String) : Nat → Nat → Option (List ExpEntry)
  | 0, i => if i < lines.length then none else some []
  | fuel + 1, i =>
    if h : i < lines.length then
      match reFindall DATE_RANGE_RE lines[i] with
      | d0 :: _ =>
        (parseExpGo lines fuel (collectSameLine lines (i + 1)).2).map
          (fun rest =>
            { title := pyStrip (String.mk (splitSepHead " - ".data lines[i].data)),
              date_text := pyStrip d0,
              bullets := (collectSameLine lines (i + 1)).1 } :: rest)
      | [] =>
        if hh : i + 1 < lines.length then
          match reSearch DATE_RANGE_RE lines[i + 1] with
          | some dt =>
            (parseExpGo lines fuel (collectLookahead lines (i + 2)).2).map
              (fun rest =>
                { title := pyStrip lines[i], date_text := pyStrip dt,
                  bullets := (collectLookahead lines (i + 2)).1 } :: rest)
          | none =>
            (parseExpGo lines fuel (i + 1)).map
              (fun rest => { title := lines[i], date_text := "", bullets := [] } :: rest)
        else
          (parseExpGo lines fuel (i + 1)).map
            (fun rest => { title := lines[i], date_text := "", bullets := [] } :: rest)
    else some []

/-- The non-blank stripped lines that `parse_experience_block` iterates
over: `[l.strip() for l in block_text.splitlines() if l.strip()]`. -/
def expLines (block_text : String) : List String :=
  ((pySplitlines block_text).map pyStrip).filter (fun l => l ≠ "")

/-- `parse_experience_block`.  The fuel `lines.length` always suffices
(theorem `c9_parse_experience_block_terminates`). -/
def parse_experience_block (block_text : String) : List ExpEntry :=
  (parseExpGo (expLines block_text) (expLines block_text).length 0).getD []

/-- `parse_text`: the main parser entry point.  The spaCy pipeline `nlp`
is abstracted by `ner`; everything else is computed from the input text. -/
def parse_text (ner : String → List Ent) (text : String) : Except PyErr Parsed :=
  match extract_name (ner text) text with
  | .error e => .error e
  | .ok name =>
    let sections := split_into_sections text
    let experience_blocks :=
      ((sections.filter (fun kv => substrIn "experience".data kv.1.data
          || substrIn "work".data kv.1.data)).map
        (fun kv => parse_experience_block kv.2)).flatten
    let education :=
      ((sections.filter (fun kv => substrIn "education".data kv.1.data)).map
        (fun kv => (pySplitlines kv.2).filterMap
          (fun l => if pyStrip l = "" then none else some (pyStrip l)))).flatten
    .ok { name := name,
          emails := extract_emails text,
          phones := extract_phones text,
          skills := extract_skills text,
          experience := experience_blocks,
          education := education,
          sections := sections.map Prod.fst,
          raw_text := text }

/-! ## `feature_extractor.py`

The feature extractor reads the parsed résumé as a plain dictionary via
`parsed.get(key, default)`, so it also accepts dictionaries with missing
keys.  `ParsedD` embeds such a dictionary: a `none` field is an absent
key.  Only the keys the extractor reads are represented; other keys
cannot influence it. -/

/-- An experience entry as read by `feature_extractor.py`
(`exp.get("date_text", "")`, `exp.get("bullets", [])`). -/
structure ExpEntryD where
  date_text : Option String
  bullets : Option (List String)
deriving DecidableEq, Repr

/-- A parsed-résumé dictionary as read by `feature_extractor.py`. -/
structure ParsedD where
  experience : Option (List ExpEntryD)
  skills : Option (List String)
  sections : Option (List String)
  emails : Option (List String)
  phones : Option (List String)
deriving DecidableEq, Repr

/-- View a `parse_experience_block` entry as a feature-extractor input. -/
def ExpEntry.toD (e : ExpEntry) : ExpEntryD :=
  { date_text := some e.date_text, bullets := some e.bullets }

/-- View a `parse_text` result as a feature-extractor input: every key the
extractor reads is present. -/
def Parsed.toD (p : Parsed) : ParsedD :=
  { experience := some (p.experience.map ExpEntry.toD),
    skills := some p.skills, sections := some p.sections,
    emails := some p.emails, phones := some p.phones }

/-- `sum(len(exp.get("bullets", [])) for exp in parsed.get("experience", []))`,
used both in the fallback of `estimate_years_experience` and in
`formatting_score`. -/
def totalBullets (pd : ParsedD) : Nat :=
  ((pd.experience.getD []).map (fun e => (e.bullets.getD []).length)).sum

/-- `estimate_years_experience`.  Each entry appends to `years`: the
clamped difference of the first two 4-digit matches of its `date_text`,
or `1` when there is exactly one match, or nothing.  (The `int()` calls
cannot fail on `\d{4}` matches, so the `except: continue` arms are dead.)
If `years` stays empty, fall back to `min(1.0 + bullets * 0.5, 20.0)`. -/
def estimate_years_experience (pd : ParsedD) : ℚ :=
  let years : List Int :=
    (pd.experience.getD []).foldl
      (fun acc e =>
        match reFindall DATE_RE (e.date_text.getD "") with
        | a :: b :: _ => acc ++ [max 0 (digitsToInt b - digitsToInt a)]
        | [_] => acc ++ [1]
        | [] => acc)
      []
  if years = [] then min (1.0 + (totalBullets pd : ℚ) * 0.5) 20.0
  else ((years.sum : ℤ) : ℚ)

/-- `count_skills`. -/
def count_skills (pd : ParsedD) : Nat := (pd.skills.getD []).length

/-- `formatting_score`: capped section count, email/phone presence, capped
bullet count. -/
def formatting_score (pd : ParsedD) : ℚ :=
  let n_sections := max 0 (pd.sections.getD []).length
  let score := 0.0 + ((min n_sections 5 : Nat) : ℚ) * 2.0
  let score := if (pd.emails.getD []) ≠ [] then score + 3.0 else score
  let score := if (pd.phones.getD []) ≠ [] then score + 2.0 else score
  score + ((min (totalBullets pd) 10 : Nat) : ℚ) * 0.5

/-- `extract_features`: the feature dictionary, in insertion order. -/
def extract_features (pd : ParsedD) : List (String × ℚ) :=
  [("years_exp", estimate_years_experience pd),
   ("skill_count", ((count_skills pd : Nat) : ℚ)),
   ("format_score", formatting_score pd),
   ("num_experience_items", ((max 0 (pd.experience.getD []).length : Nat) : ℚ))]

/-! ## `scorer.py` -/

/-- The trained scikit-learn classifier stored in
`models/resume_scorer.joblib`: `predict` on a single row (which, being an
external library call, may raise any exception), and `predict_proba`'s row
maximum when the estimator `hasattr(model, "predict_proba")`. -/
structure SKModel where
  predictFn : List ℚ → Except PyErr Int
  predictProbaMax : Option (List ℚ → ℚ)

/-- The dictionary returned by `scorer.predict` (and the fallback value
built by `run_inference_on_text` when the model file is missing). -/
structure Score where
  label : Option Int
  confidence : Option ℚ
deriving DecidableEq, Repr

/-- `load_model`: raises `FileNotFoundError` when the model file is
absent, otherwise returns the persisted `(model, features)` pair. -/
def load_model (store : Option (SKModel × List String)) :
    Except PyErr (SKModel × List String) :=
  match store with
  | none => .error .fileNotFound
  | some mf => .ok mf

/-- `features.get(f, 0)`. -/
def featureGetD (features : List (String × ℚ)) (f : String) : ℚ :=
  match features.find? (fun kv => kv.1 == f) with
  | some kv => kv.2
  | none => 0

/-- `X = [features.get(f, 0) for f in feature_list]` in `scorer.predict`. -/
def scorerInput (feature_list : List String) (features : List (String × ℚ)) : List ℚ :=
  feature_list.map (featureGetD features)

/-- `scorer.predict`: load the model, build the classifier input with
missing features defaulted to 0, and return the label with the maximal
class probability when available. -/
def scorer_predict (store : Option (SKModel × List String))
    (features : List (String × ℚ)) : Except PyErr Score :=
  match load_model store with
  | .error e => .error e
  | .ok (model, feature_list) =>
    let X := scorerInput feature_list features
    match model.predictFn X with
    | .error e => .error e
    | .ok score_label =>
      .ok { label := some score_label,
            confidence := model.predictProbaMax.map (fun g => g X) }

/-! ## `predict.py` -/

/-- The output dictionary of `run_inference_on_text`. -/
structure InferenceOutput where
  parsed : Parsed
  features : List (String × ℚ)
  score : Score
deriving DecidableEq, Repr

/-- `run_inference_on_text`: parse, extract features, score; a
`FileNotFoundError` from the scorer is replaced by a
`{"label": None, "confidence": None}` score, any other exception
propagates. -/
def run_inference_on_text (ner : String → List Ent)
    (store : Option (SKModel × List String)) (text : String) :
    Except PyErr InferenceOutput :=
  match parse_text ner text with
  | .error e => .error e
  | .ok parsed =>
    let feats := extract_features parsed.toD
    match scorer_predict store feats with
    | .ok score => .ok { parsed := parsed, features := feats, score := score }
    | .error .fileNotFound =>
      .ok { parsed := parsed, features := feats,
            score := { label := none, confidence := none } }
    | .error e => .error e

/-! ## Specification-side definitions

Definitions written from the spec's wording, used to state the claims
against the source translation above. -/

/-- The per-entry contribution of the date-range heuristic as the spec
states it: an entry whose `date_text` has at least two 4-digit-year
matches contributes `max(0, second - first)`, an entry with exactly one
match contributes `1`, others contribute nothing. -/
def entryYearContrib (e : ExpEntryD) : List Int :=
  match reFindall DATE_RE (e.date_text.getD "") with
  | a :: b :: _ => [max 0 (digitsToInt b - digitsToInt a)]
  | [_] => [1]
  | [] => []

/-- All the lines stored in the section dictionary, section by section. -/
def sectionContentLines (d : List (String × String)) : List String :=
  (d.map (fun kv => pySplitlines kv.2)).flatten

/-- A (stripped) input line that lands in a section's text: non-blank and
not a section header. -/
def contentLine (l : String) : Bool := l != "" && ! isHeaderLine l

/-- A character list without `str.splitlines` line boundaries. -/
def BreakFreeL (cs : List Char) : Prop := ∀ c ∈ cs, isLineBreak c = false

/-- The concatenation `l₁ ++ "\n" ++ l₂ ++ "\n" ++ …` of newline-terminated
lines. -/
def linesNl (bs : List (List Char)) : List Char :=
  (bs.map (fun l => l ++ ['\n'])).flatten

/-- The shape invariant of every value stored by `split_into_sections`: a
concatenation of newline-terminated, break-free lines. -/
def IsChunks (v : String) : Prop :=
  ∃ bs : List (List Char), (∀ l ∈ bs, BreakFreeL l) ∧ v.data = linesNl bs

/-- Invariant of the `split_into_sections` loop state: stored values are
newline-terminated line blocks and buffered lines are break-free. -/
def GoodState (st : SplitState) : Prop :=
  (∀ kv ∈ st.sections, IsChunks kv.2) ∧ ∀ l ∈ st.buffer, BreakFreeL l.data

/-- The multiset of lines a state accounts for: flushed plus buffered. -/
def stateContent (st : SplitState) : List String :=
  sectionContentLines st.sections ++ st.buffer

/-! ## Concrete fixtures used by the witnesses -/

/-- An NER that finds no entities (what spaCy reports on texts without
recognisable names, in particular on the empty text). -/
def nerNone : String → List Ent := fun _ => []

/-- The persisted feature-column list of `scorer.train`. -/
def featureNames : List String :=
  ["years_exp", "skill_count", "format_score", "num_experience_items"]

/-- A trained model that predicts label 1 with probability 9/10. -/
def demoModel : SKModel :=
  { predictFn := fun _ => .ok 1, predictProbaMax := some (fun _ => 9/10) }

/-- A model whose `predict` raises a non-`FileNotFoundError` exception. -/
def failingModel : SKModel :=
  { predictFn := fun _ => .error .otherError, predictProbaMax := none }

/-- A model store with `demoModel` present. -/
def demoStore : Option (SKModel × List String) := some (demoModel, featureNames)

/-- A model store with `failingModel` present. -/
def failStore : Option (SKModel × List String) := some (failingModel, featureNames)

/-- `parse_text` on the one-character text `"A"` (no entities found). -/
def pA : Parsed :=
  { name := "A", emails := [], phones := [], skills := [], experience := [],
    education := [], sections := ["header"], raw_text := "A" }

/-- A parsed dictionary with a single dated experience entry. -/
def pdDated : ParsedD :=
  { experience := some [{ date_text := some "Feb 2019 - Sep 2022", bullets := none }],
    skills := none, sections := none, emails := none, phones := none }

/-- A parsed dictionary with every key absent. -/
def pdEmpty : ParsedD :=
  { experience := none, skills := none, sections := none, emails := none, phones := none }

/-! # Theorems -/

deriving instance DecidableEq for Except

/-- C3: for every parsed-résumé dictionary — whatever keys are present or
absent — `extract_features` returns a dictionary with exactly the four
keys `years_exp`, `skill_count`, `format_score`, `num_experience_items`
(in that order), each bound to a numeric (`ℚ`) value. -/
theorem feature_vector_fixed_keys (pd : ParsedD) :
    (extract_features pd).map Prod.fst =
      ["years_exp", "skill_count", "format_score", "num_experience_items"] := rfl

/-- C1: `run_inference_on_text` is exactly the composition of the three
pipeline stages: whenever parsing succeeds and the scorer's prediction
succeeds, the output's `parsed` field is `parse_text text`, its
`features` field is `extract_features` of that parse, and its `score`
field is the scorer's prediction on exactly those features. -/
theorem pipeline_composition (ner : String → List Ent)
    (store : Option (SKModel × List String)) (text : String) (p : Parsed) (s : Score)
    (hp : parse_text ner text = .ok p)
    (hs : scorer_predict store (extract_features p.toD) = .ok s) :
    run_inference_on_text ner store text =
      .ok { parsed := p, features := extract_features p.toD, score := s } := by
  unfold run_inference_on_text
  rw [hp]
  dsimp only
  rw [hs]

/-- Witness for C1 at the concrete text `"A"` with a present model. -/
theorem pipeline_composition_witness :
    run_inference_on_text nerNone demoStore "A" =
      .ok { parsed := pA, features := extract_features pA.toD,
            score := { label := some 1, confidence := some (9/10) } } :=
  pipeline_composition nerNone demoStore "A" pA
    { label := some 1, confidence := some (9/10) } (by decide) rfl

/-- C2: when the model file is absent (`load_model` raises
`FileNotFoundError`), `run_inference_on_text` still returns normally with
score `{"label": None, "confidence": None}` and with the same `parsed`
and `features` fields as in the model-present case (C1); and any
exception other than `FileNotFoundError` raised while scoring is not
caught but propagates. -/
theorem model_error_handling (ner : String → List Ent) (text : String) (p : Parsed)
    (hp : parse_text ner text = .ok p) :
    (run_inference_on_text ner none text =
      .ok { parsed := p, features := extract_features p.toD,
            score := { label := none, confidence := none } })
    ∧ ∀ (store : Option (SKModel × List String)) (e : PyErr), e ≠ .fileNotFound →
        scorer_predict store (extract_features p.toD) = .error e →
        run_inference_on_text ner store text = .error e := by
  constructor
  · unfold run_inference_on_text
    rw [hp]
    rfl
  · intro store e he hs
    unfold run_inference_on_text
    rw [hp]
    dsimp only
    rw [hs]
    cases e with
    | fileNotFound => exact absurd rfl he
    | indexError => rfl
    | otherError => rfl

/-- Witness for C2: on `"A"`, the absent model yields the `None` score,
and a model whose `predict` raises a non-`FileNotFoundError` exception
makes `run_inference_on_text` propagate it. -/
theorem model_error_handling_witness :
    (run_inference_on_text nerNone none "A" =
      .ok { parsed := pA, features := extract_features pA.toD,
            score := { label := none, confidence := none } })
    ∧ run_inference_on_text nerNone failStore "A" = .error .otherError :=
  ⟨(model_error_handling nerNone "A" pA (by decide)).1,
   (model_error_handling nerNone "A" pA (by decide)).2 failStore .otherError
     (by decide) (by decide)⟩

/-- C4: with a present model, `scorer.predict` returns a dictionary whose
`label` is the model's integer prediction and whose `confidence` is the
maximal class probability (when available), the classifier input being
the persisted feature columns looked up in the feature dictionary; a
feature missing from the dictionary enters the classifier input as 0. -/
theorem scorer_predict_spec (m : SKModel) (fl : List String)
    (feats : List (String × ℚ)) (n : Int)
    (h : m.predictFn (scorerInput fl feats) = .ok n) :
    scorer_predict (some (m, fl)) feats =
      .ok { label := some n,
            confidence := m.predictProbaMax.map (fun g => g (scorerInput fl feats)) }
    ∧ scorerInput fl feats = fl.map (fun f => featureGetD feats f)
    ∧ ∀ f, feats.find? (fun kv => kv.1 == f) = none → featureGetD feats f = 0 := by
  refine ⟨?_, rfl, ?_⟩
  · unfold scorer_predict load_model
    dsimp only
    rw [h]
  · intro f hf
    unfold featureGetD
    rw [hf]

/-- Witness for C4: a feature dictionary carrying only `years_exp`; the
three missing features enter the classifier input as 0. -/
theorem scorer_predict_spec_witness :
    scorer_predict (some (demoModel, featureNames)) [("years_exp", 3)] =
      .ok { label := some 1, confidence := some (9/10) }
    ∧ featureGetD [("years_exp", 3)] "skill_count" = 0 :=
  ⟨(scorer_predict_spec demoModel featureNames [("years_exp", 3)] 1 rfl).1,
   (scorer_predict_spec demoModel featureNames [("years_exp", 3)] 1 rfl).2.2
     "skill_count" rfl⟩

/-- Folding "append `f e` for each element" produces the flattened map. -/
theorem foldl_append_contrib {α β : Type} (f : α → List β) (l : List α) (acc : List β) :
    l.foldl (fun acc e => acc ++ f e) acc = acc ++ (l.map f).flatten := by
  induction l generalizing acc with
  | nil => simp
  | cons x xs ih => simp [ih, List.append_assoc]

/-- The `years` list built by the loop of `estimate_years_experience` is
the flattened list of per-entry contributions. -/
theorem yearsLoop_eq (l : List ExpEntryD) :
    l.foldl
      (fun acc e =>
        match reFindall DATE_RE (e.date_text.getD "") with
        | a :: b :: _ => acc ++ [max 0 (digitsToInt b - digitsToInt a)]
        | [_] => acc ++ [1]
        | [] => acc)
      [] = (l.map entryYearContrib).flatten := by
  have hstep : ∀ (acc : List Int) (e : ExpEntryD),
      (match reFindall DATE_RE (e.date_text.getD "") with
        | a :: b :: _ => acc ++ [max 0 (digitsToInt b - digitsToInt a)]
        | [_] => acc ++ [1]
        | [] => acc) = acc ++ entryYearContrib e := by
    intro acc e
    unfold entryYearContrib
    cases hfa : reFindall DATE_RE (e.date_text.getD "") with
    | nil => simp
    | cons a t => cases t <;> simp
  rw [List.foldl_ext _ (fun acc e => acc ++ entryYearContrib e) [] (fun a b _ => hstep a b)]
  simpa using foldl_append_contrib entryYearContrib l []

/-- C5: the years-of-experience feature follows the date-range heuristic:
each experience entry contributes `max(0, second − first)` when its
`date_text` has at least two (non-overlapping) 4-digit-year matches, `1`
when it has exactly one, nothing otherwise; when no entry contributes,
the feature falls back to `min(1.0 + 0.5·bullets, 20.0)`, and otherwise
it is the sum of the contributions. -/
theorem years_experience_heuristic (pd : ParsedD) :
    (((pd.experience.getD []).map entryYearContrib).flatten = [] →
      estimate_years_experience pd = min (1.0 + (totalBullets pd : ℚ) * 0.5) 20.0)
    ∧ (((pd.experience.getD []).map entryYearContrib).flatten ≠ [] →
      estimate_years_experience pd =
        ((((pd.experience.getD []).map entryYearContrib).flatten.sum : ℤ) : ℚ)) := by
  unfold estimate_years_experience
  rw [yearsLoop_eq]
  constructor
  · intro h
    rw [if_pos h]
  · intro h
    rw [if_neg h]

/-- Witness for C5: an entry dated `"Feb 2019 - Sep 2022"` contributes
`2022 − 2019 = 3` years, so the feature is 3; with no experience at all
the fallback gives `min(1.0, 20.0) = 1`. -/
theorem years_experience_heuristic_witness :
    estimate_years_experience pdDated = 3 ∧ estimate_years_experience pdEmpty = 1 := by
  constructor
  · rw [(years_experience_heuristic pdDated).2 (by decide)]
    have h3 : ((pdDated.experience.getD []).map entryYearContrib).flatten.sum = (3 : ℤ) := by
      decide
    rw [h3]
    norm_num
  · rw [(years_experience_heuristic pdEmpty).1 rfl]
    have h0 : totalBullets pdEmpty = 0 := rfl
    rw [h0]
    norm_num

/-- C10: `formatting_score` is between 0 and 20: at most 10 from sections
(count capped at 5, times 2), at most 3 for a non-empty email list, at
most 2 for a non-empty phone list, at most 5 from bullets (count capped
at 10, times 0.5), and never negative. -/
theorem formatting_score_bounds (pd : ParsedD) :
    ((min (max 0 (pd.sections.getD []).length) 5 : Nat) : ℚ) * 2.0 ≤ 10.0
    ∧ ((min (totalBullets pd) 10 : Nat) : ℚ) * 0.5 ≤ 5.0
    ∧ 0 ≤ formatting_score pd ∧ formatting_score pd ≤ 20.0 := by
  have hs5 : ((pd.sections.getD []).length : ℚ) ⊓ 5 ≤ 5 := inf_le_right
  have hs0 : (0 : ℚ) ≤ ((pd.sections.getD []).length : ℚ) ⊓ 5 :=
    le_inf (Nat.cast_nonneg _) (by norm_num)
  have hb10 : ((totalBullets pd : ℚ)) ⊓ 10 ≤ 10 := inf_le_right
  have hb0 : (0 : ℚ) ≤ ((totalBullets pd : ℚ)) ⊓ 10 :=
    le_inf (Nat.cast_nonneg _) (by norm_num)
  refine ⟨by push_cast; norm_num; linarith, by push_cast; norm_num; linarith, ?_, ?_⟩
  · unfold formatting_score
    split_ifs <;> push_cast <;> norm_num <;> linarith
  · unfold formatting_score
    split_ifs <;> push_cast <;> norm_num <;> linarith

/-- The same-line bullet loop never moves the line index backwards. -/
theorem collectSameLine_ge (lines : List String) (j : Nat) :
    j ≤ (collectSameLine lines j).2 := by
  unfold collectSameLine
  split
  next h =>
    split
    · split
      · exact le_rfl
      · have ih := collectSameLine_ge lines (j + 1)
        dsimp only
        omega
    · exact le_rfl
  next h => exact le_rfl
termination_by lines.length - j

/-- The lookahead bullet loop never moves the line index backwards. -/
theorem collectLookahead_ge (lines : List String) (j : Nat) :
    j ≤ (collectLookahead lines j).2 := by
  unfold collectLookahead
  split
  next h =>
    split
    · exact le_rfl
    · have ih := collectLookahead_ge lines (j + 1)
      dsimp only
      omega
  next h => exact le_rfl
termination_by lines.length - j

/-- Every branch of the outer loop of `parse_experience_block` advances
the line index by at least one, so fuel covering the remaining lines
suffices. -/
theorem parseExpGo_isSome (lines : List String) (fuel : Nat) :
    ∀ i : Nat, lines.length ≤ i + fuel → (parseExpGo lines fuel i).isSome = true := by
  induction fuel with
  | zero =>
    intro i hle
    unfold parseExpGo
    rw [if_neg (by omega)]
    rfl
  | succ fuel ih =>
    intro i hle
    unfold parseExpGo
    split
    next h =>
      split
      · rw [Option.isSome_map']
        have hge := collectSameLine_ge lines (i + 1)
        exact ih _ (by omega)
      · split
        · split
          · rw [Option.isSome_map']
            have hge := collectLookahead_ge lines (i + 2)
            exact ih _ (by omega)
          · rw [Option.isSome_map']
            exact ih _ (by omega)
        · rw [Option.isSome_map']
          exact ih _ (by omega)
    next h => rfl

/-- C9: `parse_experience_block` terminates on every input: with fuel
equal to the number of non-blank lines of the block, the outer loop
finishes (the index strictly increases in every branch, so it performs at
most one iteration per non-blank line). -/
theorem parse_experience_block_terminates (block_text : String) :
    (parseExpGo (expLines block_text) (expLines block_text).length 0).isSome = true :=
  parseExpGo_isSome (expLines block_text) (expLines block_text).length 0 (by omega)

/-- `str.splitlines` of a non-empty string (or with a pending line) is
non-empty. -/
theorem slAux_ne_nil (cs : List Char) : ∀ acc, (cs ≠ [] ∨ acc ≠ []) → slAux cs acc ≠ [] := by
  induction cs with
  | nil =>
    intro acc h
    rcases h with h | h
    · exact absurd rfl h
    · unfold slAux
      rw [if_neg h]
      simp
  | cons c rest ih =>
    intro acc h
    cases rest with
    | nil =>
      unfold slAux
      split <;> simp
    | cons c' rest' =>
      unfold slAux
      split
      · simp
      · split
        · simp
        · exact ih (c :: acc) (Or.inr (by simp))

/-- C8 counterexample: on the empty input text (on which spaCy finds no
entities), `extract_name`'s fallback `doc.text.strip().splitlines()[0]`
indexes an empty list, so `parse_text` raises `IndexError` instead of
returning a structured record. -/
theorem parse_text_empty_counterexample :
    parse_text nerNone "" = .error .indexError := rfl

/-- C8 (amended): for every input text containing at least one
non-whitespace character, `parse_text` returns the structured record
(with fields `name`, `emails`, `phones`, `skills`, `experience`,
`education`, `sections`, `raw_text`) and its `raw_text` field is the
input text unchanged. -/
theorem parse_text_returns_record (ner : String → List Ent) (text : String)
    (h : pyStrip text ≠ "") :
    ∃ p : Parsed, parse_text ner text = .ok p ∧ p.raw_text = text := by
  have hd : (pyStrip text).data ≠ [] := by
    intro hc
    exact h (congrArg String.mk hc)
  have hsl : pySplitlines (pyStrip text) ≠ [] := by
    unfold pySplitlines
    intro hc
    rw [List.map_eq_nil_iff] at hc
    exact slAux_ne_nil (pyStrip text).data [] (Or.inl hd) hc
  have hname : ∃ nm, extract_name (ner text) text = .ok nm := by
    rcases hf : (ner text).find?
        (fun e => e.label == "PERSON" && decide (e.start_char < 120)) with _ | e
    · rcases hsl2 : pySplitlines (pyStrip text) with _ | ⟨first, rest⟩
      · exact absurd hsl2 hsl
      · by_cases hw : (pySplitWS first).length ≤ 4
        · exact ⟨pyStrip first, by simp only [extract_name, hf, hsl2, if_pos hw]⟩
        · exact ⟨"", by simp only [extract_name, hf, hsl2, if_neg hw]⟩
    · exact ⟨e.text, by simp only [extract_name, hf]⟩
  obtain ⟨nm, hnm⟩ := hname
  unfold parse_text
  rw [hnm]
  exact ⟨_, rfl, rfl⟩

/-- Witness for the amended C8 at the concrete text `"A"`. -/
theorem parse_text_returns_record_witness :
    ∃ p : Parsed, parse_text nerNone "A" = .ok p ∧ p.raw_text = "A" :=
  parse_text_returns_record nerNone "A" (by decide)

/-- C6: `extract_skills` returns exactly the sorted, duplicate-free list
of seed skills whose lowercase form occurs as a substring of the
lowercased text; in particular every returned element is a member of the
seed list. -/
theorem extract_skills_spec (text : String) :
    (extract_skills text).Sorted (· ≤ ·)
    ∧ (extract_skills text).Nodup
    ∧ ∀ s, s ∈ extract_skills text ↔
        s ∈ SKILLS_SEED ∧ substrIn (pyLower s).data (pyLower text).data = true := by
  refine ⟨?_, ?_, ?_⟩
  · exact List.sorted_insertionSort _ _
  · exact ((List.perm_insertionSort _ _).nodup_iff).2 (List.nodup_dedup _)
  · intro s
    unfold extract_skills
    rw [(List.perm_insertionSort _ _).mem_iff, List.mem_dedup, List.mem_filter]
    simp [skillFound]

/-! ### Lemmas for C7: content preservation of `split_into_sections` -/

open List

/-- Rebuilding a string from its characters is the identity. -/
theorem mk_data (s : String) : String.mk s.data = s := rfl

/-- Characters of an appended string. -/
theorem strData_append (a b : String) : (a ++ b).data = a.data ++ b.data := by
  cases a
  cases b
  rfl

/-- Every line produced by the `splitlines` worker is break-free
(provided the pending accumulator is). -/
theorem slAux_mem_breakFree : ∀ (cs acc : List Char), BreakFreeL acc →
    ∀ l ∈ slAux cs acc, BreakFreeL l := by
  intro cs acc
  induction cs, acc using slAux.induct with
  | case1 =>
    intro _ l hl
    simp [slAux] at hl
  | case2 acc hne =>
    intro hacc l hl
    unfold slAux at hl
    rw [if_neg hne] at hl
    simp only [List.mem_singleton] at hl
    subst hl
    intro d hd
    exact hacc d (List.mem_reverse.1 hd)
  | case3 c acc hbrk =>
    intro hacc l hl
    unfold slAux at hl
    rw [if_pos hbrk] at hl
    simp only [List.mem_singleton] at hl
    subst hl
    intro d hd
    exact hacc d (List.mem_reverse.1 hd)
  | case4 c acc hbrk =>
    intro hacc l hl
    unfold slAux at hl
    rw [if_neg hbrk] at hl
    simp only [List.mem_singleton] at hl
    subst hl
    intro d hd
    rcases List.mem_cons.1 (List.mem_reverse.1 hd) with h | h
    · subst h
      simpa using hbrk
    · exact hacc d h
  | case5 c c' rest acc hpair ih =>
    intro hacc l hl
    unfold slAux at hl
    rw [if_pos hpair] at hl
    rcases List.mem_cons.1 hl with h | h
    · subst h
      intro d hd
      exact hacc d (List.mem_reverse.1 hd)
    · exact ih (by intro d hd; simp at hd) l h
  | case6 c c' rest acc hpair hbrk ih =>
    intro hacc l hl
    unfold slAux at hl
    rw [if_neg hpair, if_pos hbrk] at hl
    rcases List.mem_cons.1 hl with h | h
    · subst h
      intro d hd
      exact hacc d (List.mem_reverse.1 hd)
    · exact ih (by intro d hd; simp at hd) l h
  | case7 c c' rest acc hpair hbrk ih =>
    intro hacc l hl
    unfold slAux at hl
    rw [if_neg hpair, if_neg hbrk] at hl
    refine ih ?_ l hl
    intro d hd
    rcases List.mem_cons.1 hd with h | h
    · subst h
      simpa using hbrk
    · exact hacc d h

/-- Stripping only removes characters. -/
theorem mem_stripL {p : Char → Bool} {cs : List Char} {c : Char}
    (h : c ∈ stripL p cs) : c ∈ cs := by
  unfold stripL at h
  rw [List.mem_reverse] at h
  have h1 := List.dropWhile_sublist (l := (cs.dropWhile p).reverse) p
  have h2 := List.dropWhile_sublist (l := cs) p
  have := h1.subset h
  rw [List.mem_reverse] at this
  exact h2.subset this

/-- The stripped lines of any text are break-free. -/
theorem stripped_lines_breakFree (text : String) :
    ∀ l ∈ (pySplitlines text).map pyStrip, BreakFreeL l.data := by
  intro l hl
  rcases List.mem_map.1 hl with ⟨l0, hl0, hstrip⟩
  rcases List.mem_map.1 hl0 with ⟨cs, hcs, hmk⟩
  intro c hc
  subst hstrip
  have hcl : c ∈ l0.data := mem_stripL hc
  subst hmk
  exact slAux_mem_breakFree text.data [] (by intro d hd; simp at hd) cs hcs c hcl

/-- One-step equation of the `splitlines` worker on the empty list. -/
theorem slAux_nil (acc : List Char) :
    slAux [] acc = if acc = [] then [] else [acc.reverse] := rfl

/-- One-step equation of the `splitlines` worker on a singleton. -/
theorem slAux_one (c : Char) (acc : List Char) :
    slAux [c] acc = if isLineBreak c then [acc.reverse] else [(c :: acc).reverse] := rfl

/-- One-step equation of the `splitlines` worker on two or more
characters. -/
theorem slAux_two (c c' : Char) (rest acc : List Char) :
    slAux (c :: c' :: rest) acc =
      if c = '\r' ∧ c' = '\n' then acc.reverse :: slAux rest []
      else if isLineBreak c then acc.reverse :: slAux (c' :: rest) []
      else slAux (c' :: rest) (c :: acc) := rfl

/-- Scanning one break-free line followed by a newline emits exactly that
line (prefixed by the pending accumulator) and restarts. -/
theorem slAux_line : ∀ (l : List Char), BreakFreeL l → ∀ (acc rest : List Char),
    slAux (l ++ '\n' :: rest) acc = (acc.reverse ++ l) :: slAux rest [] := by
  intro l
  induction l with
  | nil =>
    intro _ acc rest
    cases rest with
    | nil =>
      show slAux ['\n'] acc = (acc.reverse ++ []) :: slAux [] []
      rw [slAux_one, if_pos (show isLineBreak '\n' = true from rfl), slAux_nil, if_pos rfl]
      simp
    | cons c' rest' =>
      show slAux ('\n' :: c' :: rest') acc = (acc.reverse ++ []) :: slAux (c' :: rest') []
      rw [slAux_two, if_neg (fun hp => by simpa using hp.1),
          if_pos (show isLineBreak '\n' = true from rfl)]
      simp
  | cons c l' ih =>
    intro hbf acc rest
    have hc : isLineBreak c = false := hbf c (List.mem_cons_self c l')
    have hl' : BreakFreeL l' := fun d hd => hbf d (List.mem_cons_of_mem c hd)
    have hb : ¬(isLineBreak c = true) := by simp [hc]
    have hih := ih hl' (c :: acc) rest
    cases l' with
    | nil =>
      have hp : ¬(c = '\r' ∧ '\n' = '\n') := by
        intro hp
        rw [hp.1] at hc
        simp [isLineBreak] at hc
      show slAux (c :: '\n' :: rest) acc = _
      rw [slAux_two, if_neg hp, if_neg hb]
      simp only [List.nil_append] at hih
      rw [hih]
      simp
    | cons d l'' =>
      have hp : ¬(c = '\r' ∧ d = '\n') := by
        intro hp
        rw [hp.1] at hc
        simp [isLineBreak] at hc
      show slAux (c :: (d :: l'') ++ '\n' :: rest) acc = _
      simp only [List.cons_append]
      rw [slAux_two, if_neg hp, if_neg hb]
      simp only [List.cons_append] at hih
      rw [hih]
      simp

/-- Scanning a block of newline-terminated break-free lines emits exactly
those lines, then continues. -/
theorem slAux_linesNl : ∀ (bs : List (List Char)), (∀ l ∈ bs, BreakFreeL l) →
    ∀ rest : List Char, slAux (linesNl bs ++ rest) [] = bs ++ slAux rest [] := by
  intro bs
  induction bs with
  | nil =>
    intro _ rest
    simp [linesNl]
  | cons b bs' ih =>
    intro hbf rest
    have hb : BreakFreeL b := hbf b (List.mem_cons_self b bs')
    have hbs' : ∀ l ∈ bs', BreakFreeL l := fun l hl => hbf l (List.mem_cons_of_mem b hl)
    have hshape : linesNl (b :: bs') ++ rest = b ++ '\n' :: (linesNl bs' ++ rest) := by
      simp [linesNl, List.append_assoc]
    rw [hshape, slAux_line b hb [] (linesNl bs' ++ rest), ih hbs' rest]
    simp

/-- A terminated-line block splits back into exactly its lines. -/
theorem slAux_linesNl_nil (bs : List (List Char)) (hbf : ∀ l ∈ bs, BreakFreeL l) :
    slAux (linesNl bs) [] = bs := by
  have h := slAux_linesNl bs hbf []
  have h0 : slAux ([] : List Char) [] = [] := rfl
  simpa [h0] using h

/-- `splitlines` of a value with the chunk shape. -/
theorem pySplitlines_chunkVal {v : String} {bs : List (List Char)}
    (hdata : v.data = linesNl bs) (hbf : ∀ l ∈ bs, BreakFreeL l) :
    pySplitlines v = bs.map String.mk := by
  unfold pySplitlines
  rw [hdata, slAux_linesNl_nil bs hbf]

/-- `splitlines` distributes over appending to a chunk-shaped value. -/
theorem pySplitlines_append_chunks {v : String} (hv : IsChunks v) (w : String) :
    pySplitlines (v ++ w) = pySplitlines v ++ pySplitlines w := by
  obtain ⟨bs, hbf, hdata⟩ := hv
  unfold pySplitlines
  rw [strData_append, hdata, slAux_linesNl bs hbf w.data, List.map_append,
      slAux_linesNl_nil bs hbf]

/-- Chunk-shaped values are closed under concatenation. -/
theorem IsChunks.append {a b : String} (ha : IsChunks a) (hb : IsChunks b) :
    IsChunks (a ++ b) := by
  obtain ⟨xs, hxf, hxd⟩ := ha
  obtain ⟨ys, hyf, hyd⟩ := hb
  refine ⟨xs ++ ys, ?_, ?_⟩
  · intro l hl
    rcases List.mem_append.1 hl with h | h
    · exact hxf l h
    · exact hyf l h
  · rw [strData_append, hxd, hyd]
    unfold linesNl
    rw [List.map_append, List.flatten_append]

/-- The characters of a flushed buffer `"\n".join(buffer) + "\n"`. -/
theorem joinNl_data : ∀ (b : List String), b ≠ [] →
    (pyJoinNl b ++ "\n").data = linesNl (b.map String.data) := by
  intro b
  induction b with
  | nil => intro h; exact absurd rfl h
  | cons l ls ih =>
    intro _
    cases ls with
    | nil =>
      show (l ++ "\n").data = linesNl [l.data]
      rw [strData_append]
      simp [linesNl]
    | cons l' ls' =>
      show ((l ++ "\n" ++ pyJoinNl (l' :: ls')) ++ "\n").data = _
      have hrec := ih (by simp)
      simp only [strData_append] at hrec ⊢
      have hlines : linesNl ((l :: l' :: ls').map String.data) =
          l.data ++ ['\n'] ++ linesNl ((l' :: ls').map String.data) := by
        simp [linesNl, List.append_assoc]
      rw [hlines, ← hrec]
      simp [List.append_assoc]

/-- A non-empty flushed buffer of break-free lines is chunk-shaped and
splits back into exactly its lines. -/
theorem chunk_spec (buffer : List String) (hb : buffer ≠ [])
    (hbf : ∀ l ∈ buffer, BreakFreeL l.data) :
    IsChunks (pyJoinNl buffer ++ "\n")
    ∧ pySplitlines (pyJoinNl buffer ++ "\n") = buffer := by
  have hdata := joinNl_data buffer hb
  have hbf' : ∀ l ∈ buffer.map String.data, BreakFreeL l := by
    intro l hl
    rcases List.mem_map.1 hl with ⟨s, hs, hsd⟩
    subst hsd
    exact hbf s hs
  refine ⟨⟨buffer.map String.data, hbf', hdata⟩, ?_⟩
  rw [pySplitlines_chunkVal hdata hbf', List.map_map,
      show (String.mk ∘ String.data) = @id String from rfl, List.map_id]

/-- Unfolding `sectionContentLines` over a cons. -/
theorem sectionContentLines_cons (kv : String × String) (d : List (String × String)) :
    sectionContentLines (kv :: d) = pySplitlines kv.2 ++ sectionContentLines d := by
  simp [sectionContentLines]

/-- `dictAppend` with a chunk-shaped value keeps every stored value
chunk-shaped. -/
theorem dictAppend_chunks (k v : String) (hv : IsChunks v) :
    ∀ d : List (String × String), (∀ kv ∈ d, IsChunks kv.2) →
      ∀ kv ∈ dictAppend d k v, IsChunks kv.2 := by
  intro d
  induction d with
  | nil =>
    intro _ kv hkv
    simp only [dictAppend, List.mem_singleton] at hkv
    subst hkv
    exact hv
  | cons kv' rest ih =>
    obtain ⟨k', v'⟩ := kv'
    intro hd kv hkv
    unfold dictAppend at hkv
    split at hkv
    · rcases List.mem_cons.1 hkv with h | h
      · subst h
        exact IsChunks.append (hd (k', v') (List.mem_cons_self _ _)) hv
      · exact hd kv (List.mem_cons_of_mem _ h)
    · rcases List.mem_cons.1 hkv with h | h
      · subst h
        exact hd (k', v') (List.mem_cons_self _ _)
      · exact ih (fun x hx => hd x (List.mem_cons_of_mem _ hx)) kv h

/-- `dictAppend` adds exactly the lines of the appended chunk to the
dictionary's content, up to reordering. -/
theorem dictAppend_perm (k v : String) :
    ∀ d : List (String × String), (∀ kv ∈ d, IsChunks kv.2) →
      List.Perm (sectionContentLines (dictAppend d k v))
        (sectionContentLines d ++ pySplitlines v) := by
  intro d
  induction d with
  | nil =>
    intro _
    simp [dictAppend, sectionContentLines]
  | cons kv' rest ih =>
    obtain ⟨k', v'⟩ := kv'
    intro hd
    unfold dictAppend
    split
    · rw [sectionContentLines_cons, sectionContentLines_cons,
          pySplitlines_append_chunks (hd (k', v') (List.mem_cons_self _ _))]
      calc (pySplitlines v' ++ pySplitlines v) ++ sectionContentLines rest
          = pySplitlines v' ++ (pySplitlines v ++ sectionContentLines rest) := by
            rw [List.append_assoc]
        _ ~ pySplitlines v' ++ (sectionContentLines rest ++ pySplitlines v) :=
            List.Perm.append_left _ (List.perm_append_comm)
        _ = (pySplitlines v' ++ sectionContentLines rest) ++ pySplitlines v := by
            rw [List.append_assoc]
    · rw [sectionContentLines_cons, sectionContentLines_cons, List.append_assoc]
      exact List.Perm.append_left _
        (ih (fun x hx => hd x (List.mem_cons_of_mem _ hx)))

/-- Flushing preserves the invariant and the accounted lines, and leaves
an empty buffer. -/
theorem flushBuffer_spec (st : SplitState) (h : GoodState st) :
    GoodState (flushBuffer st)
    ∧ List.Perm (stateContent (flushBuffer st)) (stateContent st)
    ∧ (flushBuffer st).buffer = [] := by
  unfold flushBuffer
  split
  next hbe =>
    exact ⟨h, List.Perm.refl _, hbe⟩
  next hbne =>
    have hchunk := chunk_spec st.buffer hbne h.2
    refine ⟨⟨?_, ?_⟩, ?_, rfl⟩
    · exact dictAppend_chunks st.current (pyJoinNl st.buffer ++ "\n") hchunk.1
        st.sections h.1
    · intro l hl
      simp at hl
    · show List.Perm
        (sectionContentLines (dictAppend st.sections st.current (pyJoinNl st.buffer ++ "\n")) ++ [])
        (sectionContentLines st.sections ++ st.buffer)
      rw [List.append_nil]
      calc sectionContentLines (dictAppend st.sections st.current (pyJoinNl st.buffer ++ "\n"))
          ~ sectionContentLines st.sections ++ pySplitlines (pyJoinNl st.buffer ++ "\n") :=
            dictAppend_perm _ _ st.sections h.1
        _ = sectionContentLines st.sections ++ st.buffer := by rw [hchunk.2]

/-- One loop iteration of `split_into_sections` preserves the invariant
and adds exactly the content lines it consumes. -/
theorem splitStep_spec (st : SplitState) (l : String) (h : GoodState st)
    (hl : BreakFreeL l.data) :
    GoodState (splitStep st l)
    ∧ List.Perm (stateContent (splitStep st l))
        (stateContent st ++ if contentLine l then [l] else []) := by
  unfold splitStep
  by_cases h0 : l = ""
  · rw [if_pos h0]
    have hf := flushBuffer_spec st h
    have hc : contentLine l = false := by
      subst h0
      rfl
    rw [hc]
    simpa using ⟨hf.1, hf.2.1⟩
  · rw [if_neg h0]
    by_cases hh : isHeaderLine l
    · rw [if_pos hh]
      have hf := flushBuffer_spec st h
      have hc : contentLine l = false := by simp [contentLine, hh]
      rw [hc]
      refine ⟨⟨hf.1.1, ?_⟩, ?_⟩
      · intro x hx
        exact hf.1.2 x hx
      · simpa using hf.2.1
    · rw [if_neg hh]
      have hc : contentLine l = true := by simp [contentLine, h0, hh]
      rw [hc]
      refine ⟨⟨h.1, ?_⟩, ?_⟩
      · intro x hx
        rcases List.mem_append.1 hx with hx | hx
        · exact h.2 x hx
        · rw [List.mem_singleton] at hx
          subst hx
          exact hl
      · show List.Perm (sectionContentLines st.sections ++ (st.buffer ++ [l]))
          ((sectionContentLines st.sections ++ st.buffer) ++ [l])
        rw [List.append_assoc]

/-- The whole loop of `split_into_sections` accounts exactly for the
non-blank non-header lines it consumes. -/
theorem splitFold (lines : List String) :
    (∀ l ∈ lines, BreakFreeL l.data) → ∀ st : SplitState, GoodState st →
      GoodState (lines.foldl splitStep st)
      ∧ List.Perm (stateContent (lines.foldl splitStep st))
          (stateContent st ++ lines.filter contentLine) := by
  induction lines with
  | nil =>
    intro _ st h
    refine ⟨h, ?_⟩
    rw [List.foldl_nil, List.filter_nil, List.append_nil]
  | cons l rest ih =>
    intro hbf st h
    have hstep := splitStep_spec st l h (hbf l (List.mem_cons_self _ _))
    have hrest := ih (fun x hx => hbf x (List.mem_cons_of_mem _ hx)) (splitStep st l) hstep.1
    rw [List.foldl_cons]
    refine ⟨hrest.1, ?_⟩
    calc stateContent (rest.foldl splitStep (splitStep st l))
        ~ stateContent (splitStep st l) ++ rest.filter contentLine := hrest.2
      _ ~ (stateContent st ++ if contentLine l then [l] else []) ++ rest.filter contentLine :=
          List.Perm.append_right _ hstep.2
      _ = stateContent st ++ (l :: rest).filter contentLine := by
          by_cases hcl : contentLine l <;>
            simp [List.filter_cons, hcl, List.append_assoc]

/-- C7: `split_into_sections` starts a new section exactly at header lines
(lines of at most 5 words whose lowercased colon-stripped form contains a
known section-header keyword); every other non-blank stripped line of the
input is appended to some section's text, and — counted with multiplicity
— the lines stored across all sections are exactly the non-blank
non-header stripped input lines, each appearing in exactly one section's
text. -/
theorem split_into_sections_partition (text : String) :
    List.Perm (sectionContentLines (split_into_sections text))
      (((pySplitlines text).map pyStrip).filter contentLine) := by
  have hbf := stripped_lines_breakFree text
  have h0 : GoodState { sections := [], current := "header", buffer := [] } := by
    constructor
    · intro kv hkv
      simp at hkv
    · intro l hl
      simp at hl
  have hfold := splitFold ((pySplitlines text).map pyStrip) hbf _ h0
  have hflush := flushBuffer_spec _ hfold.1
  unfold split_into_sections
  calc sectionContentLines
        (flushBuffer (((pySplitlines text).map pyStrip).foldl splitStep
          { sections := [], current := "header", buffer := [] })).sections
      = stateContent (flushBuffer (((pySplitlines text).map pyStrip).foldl splitStep
          { sections := [], current := "header", buffer := [] })) := by
        rw [stateContent, hflush.2.2, List.append_nil]
    _ ~ stateContent (((pySplitlines text).map pyStrip).foldl splitStep
          { sections := [], current := "header", buffer := [] }) := hflush.2.1
    _ ~ stateContent { sections := [], current := "header", buffer := [] }
          ++ ((pySplitlines text).map pyStrip).filter contentLine := hfold.2
    _ = ((pySplitlines text).map pyStrip).filter contentLine := by
        simp [stateContent, sectionContentLines]

end Resume
